import Mathlib

/-!
Verification development for the intent-system-service API gateway
(`src/gateway/src`): the circuit breaker (`core/circuit_breaker/breaker.py`),
the route table and request proxying (`routing/router.py`), and the service
registry (`discovery/registry.py`).

Python dictionaries are modelled as insertion-ordered association lists,
strings as Lean `String` (or `List Char` for paths, where the byte-level
operations `startswith` and `replace` matter), and wall-clock timestamps
(`datetime.now(UTC).timestamp()`) as integers supplied explicitly to each
operation.  Asynchronous locking is dropped: every modelled operation is the
body that runs under the lock, as a pure state transformer.
-/

namespace Gateway

/-! ### Python dict as an insertion-ordered association list -/

/-- `d.get(k)`: the value stored at key `k`, scanning in insertion order. -/
def dictGet? {α β : Type} [DecidableEq α] (k : α) : List (α × β) → Option β
  | [] => none
  | (k', v) :: rest => if k' = k then some v else dictGet? k rest

/-- `d[k] = v`: replace the value at an existing key in place (Python dicts
keep the original insertion position), or append a fresh key at the end. -/
def dictInsert {α β : Type} [DecidableEq α] (k : α) (v : β) : List (α × β) → List (α × β)
  | [] => [(k, v)]
  | (k', v') :: rest => if k' = k then (k, v) :: rest else (k', v') :: dictInsert k v rest

/-- `d.pop(k)` / `del d[k]`: drop every entry stored under key `k`. -/
def dictErase {α β : Type} [DecidableEq α] (k : α) : List (α × β) → List (α × β)
  | [] => []
  | (k', v) :: rest => if k' = k then dictErase k rest else (k', v) :: dictErase k rest

theorem dictGet?_cons {α β : Type} [DecidableEq α] (k k₀ : α) (v₀ : β)
    (rest : List (α × β)) :
    dictGet? k ((k₀, v₀) :: rest) = if k₀ = k then some v₀ else dictGet? k rest := rfl

theorem dictInsert_cons {α β : Type} [DecidableEq α] (k k₀ : α) (v : β) (v₀ : β)
    (rest : List (α × β)) :
    dictInsert k v ((k₀, v₀) :: rest) =
      if k₀ = k then (k, v) :: rest else (k₀, v₀) :: dictInsert k v rest := rfl

theorem dictErase_cons {α β : Type} [DecidableEq α] (k k₀ : α) (v₀ : β)
    (rest : List (α × β)) :
    dictErase k ((k₀, v₀) :: rest) =
      if k₀ = k then dictErase k rest else (k₀, v₀) :: dictErase k rest := rfl

theorem dictGet?_dictInsert {α β : Type} [DecidableEq α] (k k' : α) (v : β)
    (l : List (α × β)) :
    dictGet? k' (dictInsert k v l) = if k = k' then some v else dictGet? k' l := by
  induction l with
  | nil =>
    by_cases h : k = k' <;> simp [dictInsert, dictGet?, h]
  | cons p rest ih =>
    obtain ⟨k₀, v₀⟩ := p
    by_cases h₀ : k₀ = k
    · subst h₀
      by_cases h : k₀ = k' <;> simp [dictInsert, dictGet?, h]
    · by_cases h : k₀ = k'
      · subst h
        have : ¬ k = k₀ := fun hk => h₀ hk.symm
        simp [dictInsert, dictGet?, h₀, this]
      · simp [dictInsert, dictGet?, h₀, h, ih]

theorem dictGet?_dictErase {α β : Type} [DecidableEq α] (k k' : α) (l : List (α × β)) :
    dictGet? k' (dictErase k l) = if k = k' then none else dictGet? k' l := by
  induction l with
  | nil => by_cases h : k = k' <;> simp [dictErase, dictGet?, h]
  | cons p rest ih =>
    obtain ⟨k₀, v₀⟩ := p
    by_cases h₀ : k₀ = k
    · subst h₀
      by_cases h : k₀ = k'
      · subst h
        simp [dictErase, dictGet?, ih]
      · simp [dictErase, dictGet?, h, ih]
    · by_cases h : k₀ = k'
      · subst h
        have hne : k ≠ k₀ := fun hk => h₀ hk.symm
        simp [dictErase, dictGet?, h₀, hne]
      · simp [dictErase, dictGet?, h₀, h, ih]

theorem mem_dictErase {α β : Type} [DecidableEq α] (k : α) (p : α × β) (l : List (α × β)) :
    p ∈ dictErase k l ↔ p ∈ l ∧ p.1 ≠ k := by
  induction l with
  | nil => simp [dictErase]
  | cons q rest ih =>
    obtain ⟨k₀, v₀⟩ := q
    by_cases h₀ : k₀ = k
    · subst h₀
      rw [dictErase_cons, if_pos rfl]
      simp only [ih, List.mem_cons]
      constructor
      · rintro ⟨hm, hne⟩
        exact ⟨Or.inr hm, hne⟩
      · rintro ⟨hm | hm, hne⟩
        · exact absurd (congrArg Prod.fst hm) hne
        · exact ⟨hm, hne⟩
    · rw [dictErase_cons, if_neg h₀]
      simp only [List.mem_cons, ih]
      constructor
      · rintro (hm | ⟨hm, hne⟩)
        · exact ⟨Or.inl hm, by rw [hm]; exact h₀⟩
        · exact ⟨Or.inr hm, hne⟩
      · rintro ⟨hm | hm, hne⟩
        · exact Or.inl hm
        · exact Or.inr ⟨hm, hne⟩

theorem mem_dictInsert {α β : Type} [DecidableEq α] (k : α) (v : β) (p : α × β)
    (l : List (α × β)) (h : p ∈ dictInsert k v l) : p = (k, v) ∨ p ∈ l := by
  induction l with
  | nil => simpa [dictInsert] using h
  | cons q rest ih =>
    obtain ⟨k₀, v₀⟩ := q
    by_cases h₀ : k₀ = k
    · subst h₀
      rw [dictInsert_cons, if_pos rfl] at h
      simp only [List.mem_cons] at h
      rcases h with hm | hm
      · exact Or.inl hm
      · exact Or.inr (List.mem_cons_of_mem _ hm)
    · rw [dictInsert_cons, if_neg h₀] at h
      simp only [List.mem_cons] at h
      rcases h with hm | hm
      · exact Or.inr (by rw [hm]; exact List.mem_cons_self _ _)
      · rcases ih hm with h' | h'
        · exact Or.inl h'
        · exact Or.inr (List.mem_cons_of_mem _ h')

theorem dictInsert_of_fresh {α β : Type} [DecidableEq α] (k : α) (v : β)
    (l : List (α × β)) (h : ∀ p ∈ l, p.1 ≠ k) :
    dictInsert k v l = l ++ [(k, v)] := by
  induction l with
  | nil => simp [dictInsert]
  | cons q rest ih =>
    obtain ⟨k₀, v₀⟩ := q
    have hk₀ : k₀ ≠ k := h (k₀, v₀) (List.mem_cons_self _ _)
    rw [dictInsert_cons, if_neg hk₀]
    simp only [List.cons_append, List.cons.injEq, true_and]
    exact ih fun p hp => h p (List.mem_cons_of_mem _ hp)

theorem dictErase_sublist {α β : Type} [DecidableEq α] (k : α) (l : List (α × β)) :
    List.Sublist (dictErase k l) l := by
  induction l with
  | nil => simp [dictErase]
  | cons q rest ih =>
    obtain ⟨k₀, v₀⟩ := q
    by_cases h₀ : k₀ = k
    · simpa [dictErase, h₀] using List.Sublist.cons (k₀, v₀) ih
    · simpa [dictErase, h₀] using List.Sublist.cons₂ (k₀, v₀) ih

theorem dictGet?_some_mem {α β : Type} [DecidableEq α] (k : α) (v : β) :
    ∀ l : List (α × β), dictGet? k l = some v → (k, v) ∈ l := by
  intro l
  induction l with
  | nil => intro h; simp [dictGet?] at h
  | cons q rest ih =>
    obtain ⟨k₀, v₀⟩ := q
    by_cases h₀ : k₀ = k
    · subst h₀
      intro h
      rw [dictGet?_cons, if_pos rfl] at h
      rw [← Option.some.injEq v₀ v |>.mp h]
      exact List.mem_cons_self _ _
    · intro h
      rw [dictGet?_cons, if_neg h₀] at h
      exact List.mem_cons_of_mem _ (ih h)

/-! ### Circuit breaker (`core/circuit_breaker/breaker.py`, `models.py`)

Timestamps are integers; `datetime.now(UTC)` is passed in explicitly as `now`
(one reading per `execute` call).  The breaker's `name` (used only in log
messages and error payloads) and the ISO formatting of the retry-after
timestamp are dropped: a `CircuitOpenError` carries the raw timestamp. -/

/-- `CircuitState` from `models.py`. -/
inductive CircuitState : Type
  | closed
  | opened
  | halfOpen
  deriving DecidableEq, Repr

/-- `CircuitStats` from `models.py`. -/
structure CircuitStats : Type where
  total_requests : Nat := 0
  failed_requests : Nat := 0
  successful_requests : Nat := 0
  last_failure_time : Option Int := none
  last_success_time : Option Int := none
  deriving DecidableEq, Repr

/-- `CircuitConfig` from `models.py`, with its Python defaults. -/
structure CircuitConfig : Type where
  failure_threshold : Nat := 5
  recovery_timeout : Int := 60
  half_open_timeout : Int := 30
  failure_window : Int := 120
  min_throughput : Nat := 5
  deriving DecidableEq, Repr

/-- The mutable state of a `CircuitBreaker` instance. -/
structure CircuitBreaker : Type where
  config : CircuitConfig
  stats : CircuitStats
  state : CircuitState
  last_state_change : Int
  half_open_count : Nat
  consecutive_successes : Nat
  deriving DecidableEq, Repr

/-- `CircuitBreaker.__init__`: fresh breaker created at time `now`. -/
def mkBreaker (config : CircuitConfig) (now : Int) : CircuitBreaker :=
  { config := config
    stats := {}
    state := CircuitState.closed
    last_state_change := now
    half_open_count := 0
    consecutive_successes := 0 }

/-- `CircuitOpenError`: raised when a call is blocked.  The OPEN branch
attaches the computed retry-after timestamp (`until`), the HALF_OPEN
exhausted branch raises it without one. -/
inductive CircuitError : Type
  | circuitOpenErr (untilTime : Option Int)
  deriving DecidableEq, Repr

/-- `CircuitBreaker._before_call`: state check performed before the wrapped
function runs.  `Except.error` models the `raise` paths (which mutate
nothing); `Except.ok` returns the state after any admission bookkeeping. -/
def before_call (cb : CircuitBreaker) (now : Int) : Except CircuitError CircuitBreaker :=
  match cb.state with
  | CircuitState.opened =>
    let recovery_time := cb.last_state_change + cb.config.recovery_timeout
    if recovery_time < now then
      Except.ok { cb with
        state := CircuitState.halfOpen
        last_state_change := now
        half_open_count := 0
        consecutive_successes := 0 }
    else
      Except.error (CircuitError.circuitOpenErr (some recovery_time))
  | CircuitState.halfOpen =>
    if cb.config.min_throughput ≤ cb.half_open_count then
      Except.error (CircuitError.circuitOpenErr none)
    else
      Except.ok { cb with half_open_count := cb.half_open_count + 1 }
  | CircuitState.closed => Except.ok cb

/-- The stats update shared by `_on_failure` (before the state logic). -/
def record_failure (cb : CircuitBreaker) (now : Int) : CircuitBreaker :=
  { cb with stats := { cb.stats with
      failed_requests := cb.stats.failed_requests + 1
      total_requests := cb.stats.total_requests + 1
      last_failure_time := some now } }

/-- `CircuitBreaker._get_recent_failures`: 0 when no failure is recorded or
the last failure predates the window start; otherwise the entire
`failed_requests` counter. -/
def get_recent_failures (cb : CircuitBreaker) (now : Int) : Nat :=
  match cb.stats.last_failure_time with
  | none => 0
  | some t =>
    let window_start := now - cb.config.failure_window
    if t < window_start then 0 else cb.stats.failed_requests

/-- `CircuitBreaker._on_success`. -/
def on_success (cb : CircuitBreaker) (now : Int) : CircuitBreaker :=
  let cb := { cb with stats := { cb.stats with
      successful_requests := cb.stats.successful_requests + 1
      total_requests := cb.stats.total_requests + 1
      last_success_time := some now } }
  match cb.state with
  | CircuitState.halfOpen =>
    let cb := { cb with consecutive_successes := cb.consecutive_successes + 1 }
    if cb.config.min_throughput ≤ cb.consecutive_successes then
      { cb with state := CircuitState.closed, last_state_change := now }
    else cb
  | _ => cb

/-- `CircuitBreaker._on_failure`. -/
def on_failure (cb : CircuitBreaker) (now : Int) : CircuitBreaker :=
  let cb := record_failure cb now
  match cb.state with
  | CircuitState.closed =>
    let failure_count := get_recent_failures cb now
    if cb.config.failure_threshold ≤ failure_count then
      { cb with state := CircuitState.opened, last_state_change := now }
    else cb
  | CircuitState.halfOpen =>
    { cb with
      state := CircuitState.opened
      last_state_change := now
      half_open_count := 0
      consecutive_successes := 0 }
  | CircuitState.opened => cb

/-- Outcome of one `__call__` (`execute`) of the breaker. -/
inductive ExecOutcome : Type
  | blocked (e : CircuitError)
  | succeeded
  | failedCall
  deriving DecidableEq, Repr

/-- `CircuitBreaker.__call__`: run `_before_call`; a raise there propagates
with the state untouched.  Otherwise the wrapped function runs (`funcOk`
says whether it succeeds) and `_on_success` / `_on_failure` applies. -/
def execute (cb : CircuitBreaker) (now : Int) (funcOk : Bool) :
    ExecOutcome × CircuitBreaker :=
  match before_call cb now with
  | Except.error e => (ExecOutcome.blocked e, cb)
  | Except.ok cb₁ =>
    if funcOk then (ExecOutcome.succeeded, on_success cb₁ now)
    else (ExecOutcome.failedCall, on_failure cb₁ now)

/-- A run of consecutive failed `execute` calls at the given times. -/
def failTimes (cb : CircuitBreaker) (ts : List Int) : CircuitBreaker :=
  ts.foldl (fun c t => (execute c t false).2) cb

/-- A run of consecutive successful `execute` calls at the given times. -/
def succTimes (cb : CircuitBreaker) (ts : List Int) : CircuitBreaker :=
  ts.foldl (fun c t => (execute c t true).2) cb

theorem execute_blocked_eq (cb : CircuitBreaker) (now : Int) (funcOk : Bool)
    (e : CircuitError) (h : (execute cb now funcOk).1 = ExecOutcome.blocked e) :
    (execute cb now funcOk).2 = cb := by
  unfold execute at h ⊢
  cases hb : before_call cb now with
  | error e' => rfl
  | ok cb₁ => cases funcOk <;> rw [hb] at h <;> simp at h

/-- A fixed concrete breaker sitting in the OPEN state (default config,
`last_state_change = 0`), used to witness the blocked-call theorems. -/
def cbOpenW : CircuitBreaker :=
  { mkBreaker {} 0 with state := CircuitState.opened }

/-- A fixed concrete breaker sitting in HALF_OPEN with its trial budget
(`min_throughput = 5` admissions) already used up. -/
def cbHalfW : CircuitBreaker :=
  { mkBreaker {} 0 with state := CircuitState.halfOpen, half_open_count := 5 }

/-- Claim C4: in OPEN, while `now` is not past
`last_state_change + recovery_timeout`, every `execute` call is rejected with
a `CircuitOpenError` carrying that retry-after timestamp, the wrapped
function is not invoked and the breaker is unchanged; the first call with
`now` strictly past that bound switches the breaker to HALF_OPEN and resets
`half_open_count` and `consecutive_successes` to 0 in `_before_call`, i.e.
before the wrapped function runs. -/
theorem claim_c4 (cb : CircuitBreaker) (now : Int) (funcOk : Bool)
    (h : cb.state = CircuitState.opened) :
    (¬ cb.last_state_change + cb.config.recovery_timeout < now →
       execute cb now funcOk =
         (ExecOutcome.blocked (CircuitError.circuitOpenErr
            (some (cb.last_state_change + cb.config.recovery_timeout))), cb))
    ∧ (cb.last_state_change + cb.config.recovery_timeout < now →
       before_call cb now = Except.ok { cb with
         state := CircuitState.halfOpen
         last_state_change := now
         half_open_count := 0
         consecutive_successes := 0 }) := by
  constructor
  · intro hle
    simp [execute, before_call, h, hle]
  · intro hlt
    simp [before_call, h, hlt]

theorem claim_c4_witness :
    execute cbOpenW 10 true =
      (ExecOutcome.blocked (CircuitError.circuitOpenErr (some 60)), cbOpenW) :=
  (claim_c4 cbOpenW 10 true (by decide)).1 (by decide)

/-- Claim C6: in HALF_OPEN, a call arriving with
`half_open_count ≥ min_throughput` is rejected with a `CircuitOpenError`
(no retry-after), the wrapped function is not invoked and the breaker is
unchanged; an admitted call (`half_open_count < min_throughput`) increments
`half_open_count` in `_before_call`. -/
theorem claim_c6 (cb : CircuitBreaker) (now : Int) (funcOk : Bool)
    (h : cb.state = CircuitState.halfOpen) :
    (cb.config.min_throughput ≤ cb.half_open_count →
       execute cb now funcOk =
         (ExecOutcome.blocked (CircuitError.circuitOpenErr none), cb))
    ∧ (cb.half_open_count < cb.config.min_throughput →
       before_call cb now =
         Except.ok { cb with half_open_count := cb.half_open_count + 1 }) := by
  constructor
  · intro hge
    simp [execute, before_call, h, hge]
  · intro hlt
    simp [before_call, h, Nat.not_le_of_lt hlt]

theorem claim_c6_witness :
    execute cbHalfW 0 true =
      (ExecOutcome.blocked (CircuitError.circuitOpenErr none), cbHalfW) :=
  (claim_c6 cbHalfW 0 true (by decide)).1 (by decide)

/-- Claim C10: a blocked `execute` call (OPEN before the recovery timeout, or
HALF_OPEN with the trial budget exhausted) leaves `total_requests`,
`failed_requests` and `successful_requests` unchanged, and in the HALF_OPEN
case also leaves `half_open_count`, `consecutive_successes` and the state
unchanged. -/
theorem claim_c10 (cb : CircuitBreaker) (now : Int) (funcOk : Bool)
    (e : CircuitError) (h : (execute cb now funcOk).1 = ExecOutcome.blocked e) :
    (execute cb now funcOk).2.stats.total_requests = cb.stats.total_requests
    ∧ (execute cb now funcOk).2.stats.failed_requests = cb.stats.failed_requests
    ∧ (execute cb now funcOk).2.stats.successful_requests = cb.stats.successful_requests
    ∧ (cb.state = CircuitState.halfOpen →
        (execute cb now funcOk).2.half_open_count = cb.half_open_count
        ∧ (execute cb now funcOk).2.consecutive_successes = cb.consecutive_successes
        ∧ (execute cb now funcOk).2.state = cb.state) := by
  rw [execute_blocked_eq cb now funcOk e h]
  exact ⟨rfl, rfl, rfl, fun _ => ⟨rfl, rfl, rfl⟩⟩

theorem failTimes_nil (cb : CircuitBreaker) : failTimes cb [] = cb := rfl

theorem failTimes_cons (cb : CircuitBreaker) (t : Int) (ts : List Int) :
    failTimes cb (t :: ts) = failTimes (execute cb t false).2 ts := rfl

theorem succTimes_nil (cb : CircuitBreaker) : succTimes cb [] = cb := rfl

theorem succTimes_cons (cb : CircuitBreaker) (t : Int) (ts : List Int) :
    succTimes cb (t :: ts) = succTimes (execute cb t true).2 ts := rfl

theorem get_recent_failures_record (cb : CircuitBreaker) (now : Int) :
    get_recent_failures (record_failure cb now) now =
      if now < now - cb.config.failure_window then 0
      else cb.stats.failed_requests + 1 := by
  simp [get_recent_failures, record_failure]

theorem execute_closed_failure (cb : CircuitBreaker) (now : Int)
    (h : cb.state = CircuitState.closed) :
    (execute cb now false).2 =
      if cb.config.failure_threshold ≤ get_recent_failures (record_failure cb now) now
      then { record_failure cb now with
             state := CircuitState.opened, last_state_change := now }
      else record_failure cb now := by
  by_cases hc :
      cb.config.failure_threshold ≤ get_recent_failures (record_failure cb now) now <;>
    simp [execute, before_call, on_failure, record_failure, h, hc]

theorem failTimes_opens : ∀ (ts : List Int) (cb : CircuitBreaker),
    cb.state = CircuitState.closed →
    0 ≤ cb.config.failure_window →
    cb.stats.failed_requests + ts.length = cb.config.failure_threshold →
    ts ≠ [] →
    (failTimes cb ts).state = CircuitState.opened := by
  intro ts
  induction ts with
  | nil => intro cb _ _ _ hne; exact absurd rfl hne
  | cons t ts ih =>
    intro cb hst hw hcount _
    have hrec : get_recent_failures (record_failure cb t) t =
        cb.stats.failed_requests + 1 := by
      rw [get_recent_failures_record]
      rw [if_neg (by omega)]
    rcases ts with _ | ⟨t', ts'⟩
    · have hth : cb.config.failure_threshold ≤
          get_recent_failures (record_failure cb t) t := by
        rw [hrec]; simp at hcount; omega
      rw [failTimes_cons, failTimes_nil, execute_closed_failure cb t hst, if_pos hth]
    · have hth : ¬ cb.config.failure_threshold ≤
          get_recent_failures (record_failure cb t) t := by
        rw [hrec]; simp at hcount; omega
      rw [failTimes_cons, execute_closed_failure cb t hst, if_neg hth]
      apply ih
      · exact hst
      · exact hw
      · simp [record_failure] at hcount ⊢; omega
      · simp

theorem execute_halfOpen_success_proj (cb : CircuitBreaker) (now : Int)
    (h : cb.state = CircuitState.halfOpen)
    (hadm : cb.half_open_count < cb.config.min_throughput) :
    ((execute cb now true).2.state =
       if cb.config.min_throughput ≤ cb.consecutive_successes + 1
       then CircuitState.closed else CircuitState.halfOpen)
    ∧ (execute cb now true).2.half_open_count = cb.half_open_count + 1
    ∧ (execute cb now true).2.consecutive_successes = cb.consecutive_successes + 1
    ∧ (execute cb now true).2.config = cb.config := by
  by_cases hc : cb.config.min_throughput ≤ cb.consecutive_successes + 1 <;>
    simp [execute, before_call, on_success, h, Nat.not_le.mpr hadm, hc]

theorem execute_halfOpen_failure_proj (cb : CircuitBreaker) (now : Int)
    (h : cb.state = CircuitState.halfOpen)
    (hadm : cb.half_open_count < cb.config.min_throughput) :
    (execute cb now false).2.state = CircuitState.opened
    ∧ (execute cb now false).2.half_open_count = 0
    ∧ (execute cb now false).2.consecutive_successes = 0 := by
  simp [execute, before_call, on_failure, record_failure, h, Nat.not_le.mpr hadm]

theorem succTimes_closes : ∀ (ts : List Int) (cb : CircuitBreaker),
    cb.state = CircuitState.halfOpen →
    cb.half_open_count = cb.consecutive_successes →
    cb.consecutive_successes + ts.length = cb.config.min_throughput →
    ts ≠ [] →
    (succTimes cb ts).state = CircuitState.closed := by
  intro ts
  induction ts with
  | nil => intro cb _ _ _ hne; exact absurd rfl hne
  | cons t ts ih =>
    intro cb hst heq hcount _
    have hadm : cb.half_open_count < cb.config.min_throughput := by
      simp at hcount; omega
    obtain ⟨hstate, hhoc, hcs, hcfg⟩ := execute_halfOpen_success_proj cb t hst hadm
    rcases ts with _ | ⟨t', ts'⟩
    · have hcl : cb.config.min_throughput ≤ cb.consecutive_successes + 1 := by
        simp at hcount; omega
      rw [succTimes_cons, succTimes_nil, hstate, if_pos hcl]
    · have hcl : ¬ cb.config.min_throughput ≤ cb.consecutive_successes + 1 := by
        simp at hcount; omega
      rw [if_neg hcl] at hstate
      rw [succTimes_cons]
      apply ih
      · exact hstate
      · rw [hhoc, hcs, heq]
      · rw [hcs, hcfg]; simp at hcount ⊢; omega
      · simp

theorem succTimes_stays : ∀ (ts : List Int) (cb : CircuitBreaker),
    cb.state = CircuitState.halfOpen →
    cb.half_open_count = cb.consecutive_successes →
    cb.consecutive_successes + ts.length < cb.config.min_throughput →
    (succTimes cb ts).state = CircuitState.halfOpen := by
  intro ts
  induction ts with
  | nil => intro cb hst _ _; rw [succTimes_nil]; exact hst
  | cons t ts ih =>
    intro cb hst heq hcount
    have hadm : cb.half_open_count < cb.config.min_throughput := by
      simp at hcount; omega
    obtain ⟨hstate, hhoc, hcs, hcfg⟩ := execute_halfOpen_success_proj cb t hst hadm
    have hcl : ¬ cb.config.min_throughput ≤ cb.consecutive_successes + 1 := by
      simp at hcount; omega
    rw [if_neg hcl] at hstate
    rw [succTimes_cons]
    apply ih
    · exact hstate
    · rw [hhoc, hcs, heq]
    · rw [hcs, hcfg]; simp at hcount ⊢; omega

/-- Claim C3: a failed `execute` in CLOSED opens the circuit exactly when the
recent-failure count reaches `failure_threshold`; the recent-failure count on
a failure at time `now` is the entire (just-incremented) `failed_requests`
counter when the recorded `last_failure_time` (= `now`) is within
`failure_window` seconds of `now`, and 0 otherwise; and a fresh breaker
reaches OPEN after exactly `failure_threshold` consecutive failed calls. -/
theorem claim_c3 (cfg : CircuitConfig) (t0 : Int) (ts : List Int)
    (hw : 0 ≤ cfg.failure_window) (hth : 0 < cfg.failure_threshold)
    (hlen : ts.length = cfg.failure_threshold) :
    (failTimes (mkBreaker cfg t0) ts).state = CircuitState.opened
    ∧ (∀ cb : CircuitBreaker, ∀ now : Int, cb.state = CircuitState.closed →
        ((execute cb now false).2.state = CircuitState.opened ↔
          cb.config.failure_threshold ≤ get_recent_failures (record_failure cb now) now))
    ∧ (∀ cb : CircuitBreaker, ∀ now : Int,
        get_recent_failures (record_failure cb now) now =
          if now < now - cb.config.failure_window then 0
          else cb.stats.failed_requests + 1) := by
  refine ⟨?_, ?_, fun cb now => get_recent_failures_record cb now⟩
  · apply failTimes_opens ts (mkBreaker cfg t0) rfl hw
    · simpa [mkBreaker] using hlen
    · intro hnil
      rw [hnil] at hlen
      simp at hlen
      omega
  · intro cb now h
    rw [execute_closed_failure cb now h]
    by_cases hc :
        cb.config.failure_threshold ≤ get_recent_failures (record_failure cb now) now
    · rw [if_pos hc]
      simp [hc]
    · rw [if_neg hc]
      have hrs : (record_failure cb now).state = cb.state := rfl
      rw [hrs, h]
      simp [hc]

theorem claim_c3_witness :
    (failTimes (mkBreaker {} 0) [0, 0, 0, 0, 0]).state = CircuitState.opened :=
  (claim_c3 {} 0 [0, 0, 0, 0, 0] (by decide) (by decide) (by decide)).1

/-- A fixed concrete breaker that has just entered HALF_OPEN (default
config, counters reset to 0). -/
def cbHalfFreshW : CircuitBreaker :=
  { mkBreaker {} 0 with state := CircuitState.halfOpen }

/-- Claim C5: from a just-entered HALF_OPEN state, exactly `min_throughput`
consecutive successful `execute` calls close the circuit (fewer leave it
half-open), and any single admitted failed call reopens it, resetting
`half_open_count` and `consecutive_successes` to 0 no matter how many
successes preceded it. -/
theorem claim_c5 (cb : CircuitBreaker)
    (h : cb.state = CircuitState.halfOpen)
    (h0 : cb.half_open_count = 0) (hc0 : cb.consecutive_successes = 0)
    (hm : 0 < cb.config.min_throughput) :
    (∀ ts : List Int, ts.length = cb.config.min_throughput →
        (succTimes cb ts).state = CircuitState.closed)
    ∧ (∀ ts : List Int, ts.length < cb.config.min_throughput →
        (succTimes cb ts).state = CircuitState.halfOpen)
    ∧ (∀ cb' : CircuitBreaker, ∀ now : Int,
        cb'.state = CircuitState.halfOpen →
        cb'.half_open_count < cb'.config.min_throughput →
        (execute cb' now false).2.state = CircuitState.opened
        ∧ (execute cb' now false).2.half_open_count = 0
        ∧ (execute cb' now false).2.consecutive_successes = 0) := by
  refine ⟨?_, ?_, fun cb' now h' hadm => execute_halfOpen_failure_proj cb' now h' hadm⟩
  · intro ts hlen
    apply succTimes_closes ts cb h (by rw [h0, hc0])
    · rw [hc0, hlen]; simp
    · intro hnil
      rw [hnil] at hlen
      simp at hlen
      omega
  · intro ts hlen
    apply succTimes_stays ts cb h (by rw [h0, hc0])
    rw [hc0]
    simpa using hlen

theorem claim_c5_witness :
    (succTimes cbHalfFreshW [0, 0, 0, 0, 0]).state = CircuitState.closed :=
  (claim_c5 cbHalfFreshW (by decide) (by decide) (by decide) (by decide)).1
    [0, 0, 0, 0, 0] (by decide)

theorem claim_c10_witness :
    (execute cbHalfW 0 false).2.stats.total_requests = cbHalfW.stats.total_requests
    ∧ (execute cbHalfW 0 false).2.stats.failed_requests = cbHalfW.stats.failed_requests
    ∧ (execute cbHalfW 0 false).2.stats.successful_requests
        = cbHalfW.stats.successful_requests
    ∧ (cbHalfW.state = CircuitState.halfOpen →
        (execute cbHalfW 0 false).2.half_open_count = cbHalfW.half_open_count
        ∧ (execute cbHalfW 0 false).2.consecutive_successes
            = cbHalfW.consecutive_successes
        ∧ (execute cbHalfW 0 false).2.state = cbHalfW.state) :=
  claim_c10 cbHalfW 0 false (CircuitError.circuitOpenErr none) (by decide)

/-! ### Service registry (`discovery/registry.py`, `discovery/models.py`)

The health-check loops, HTTP client, metadata, timestamps and check-endpoint
configuration are outside the modelled operations; `ServiceDefinition` and
`ServiceInstance` keep only the fields those operations read. -/

/-- `ServiceStatus` from `discovery/models.py`. -/
inductive ServiceStatus : Type
  | unknown
  | healthy
  | unhealthy
  | starting
  | stopped
  | failed
  deriving DecidableEq, Repr

/-- `ServiceInstance` (identity, address and health status). -/
structure ServiceInstance : Type where
  instance_id : String
  host : String
  port : Nat
  status : ServiceStatus
  deriving DecidableEq, Repr

/-- `ServiceDefinition`: a service and its instances, keyed by instance id. -/
structure ServiceDefinition : Type where
  service_name : String
  instances : List (String × ServiceInstance)
  deriving DecidableEq, Repr

/-- `RegistrationRequest` (name, host, port). -/
structure RegistrationRequest : Type where
  service_name : String
  host : String
  port : Nat
  deriving DecidableEq, Repr

/-- The `ServiceRegistry._services` map. -/
structure ServiceRegistry : Type where
  services : List (String × ServiceDefinition)
  deriving DecidableEq, Repr

def emptyRegistry : ServiceRegistry := { services := [] }

/-- The exceptions the registry raises: `ServiceNotFoundError` and
`ServiceUnavailableError` (`discovery/exceptions.py`). -/
inductive RegistryError : Type
  | serviceNotFound
  | serviceUnavailable
  deriving DecidableEq, Repr

/-- The instance id computed by `register_service`: `"{host}:{port}"`. -/
def instanceIdOf (host : String) (port : Nat) : String :=
  host ++ ":" ++ Nat.repr port

/-- `ServiceRegistry.register_service`: create the `ServiceDefinition` on
first registration, then store the new instance (status STARTING) under its
`host:port` id. -/
def register_service (reg : ServiceRegistry) (req : RegistrationRequest) :
    ServiceRegistry × ServiceInstance :=
  let service :=
    match dictGet? req.service_name reg.services with
    | some s => s
    | none => { service_name := req.service_name, instances := [] }
  let inst : ServiceInstance :=
    { instance_id := instanceIdOf req.host req.port
      host := req.host
      port := req.port
      status := ServiceStatus.starting }
  let service := { service with
    instances := dictInsert inst.instance_id inst service.instances }
  ({ services := dictInsert req.service_name service reg.services }, inst)

/-- `ServiceRegistry.deregister_service`: unknown service name raises
`ServiceNotFoundError`; a present instance is removed, and the whole
`ServiceDefinition` is deleted when no instances remain; an unknown
instance id on a known service is a no-op. -/
def deregister_service (reg : ServiceRegistry) (service_name inst_id : String) :
    Except RegistryError ServiceRegistry :=
  match dictGet? service_name reg.services with
  | none => Except.error RegistryError.serviceNotFound
  | some service =>
    if (dictGet? inst_id service.instances).isSome then
      let service := { service with
        instances := dictErase inst_id service.instances }
      if service.instances = [] then
        Except.ok { services := dictErase service_name reg.services }
      else
        Except.ok { services := dictInsert service_name service reg.services }
    else
      Except.ok reg

/-- `ServiceRegistry.get_service`. -/
def get_service (reg : ServiceRegistry) (service_name : String) :
    Except RegistryError ServiceDefinition :=
  match dictGet? service_name reg.services with
  | none => Except.error RegistryError.serviceNotFound
  | some service => Except.ok service

/-- `ServiceRegistry.get_instance`: filter the service's instances by
HEALTHY when `healthy_only`, raise `ServiceUnavailableError` when the
filtered list is empty, otherwise return its first element. -/
def get_instance (reg : ServiceRegistry) (service_name : String)
    (healthy_only : Bool) : Except RegistryError ServiceInstance :=
  match get_service reg service_name with
  | Except.error e => Except.error e
  | Except.ok service =>
    match (service.instances.map (fun pr => pr.2)).filter
        (fun inst => !healthy_only || inst.status == ServiceStatus.healthy) with
    | [] => Except.error RegistryError.serviceUnavailable
    | inst :: _ => Except.ok inst

/-- The registry operations claim C7 ranges over. -/
inductive RegistryOp : Type
  | register (req : RegistrationRequest)
  | deregister (service_name inst_id : String)
  deriving DecidableEq, Repr

/-- Apply one operation; a raised error leaves the registry unchanged. -/
def applyRegOp (reg : ServiceRegistry) : RegistryOp → ServiceRegistry
  | RegistryOp.register req => (register_service reg req).1
  | RegistryOp.deregister n i =>
    match deregister_service reg n i with
    | Except.ok reg' => reg'
    | Except.error _ => reg

def runRegOps (ops : List RegistryOp) : ServiceRegistry :=
  ops.foldl applyRegOp emptyRegistry

theorem dictInsert_ne_nil {α β : Type} [DecidableEq α] (k : α) (v : β)
    (l : List (α × β)) : dictInsert k v l ≠ [] := by
  cases l with
  | nil => simp [dictInsert]
  | cons p rest =>
    obtain ⟨k₀, v₀⟩ := p
    rw [dictInsert_cons]
    split <;> simp

theorem register_preserves_nonempty (reg : ServiceRegistry)
    (req : RegistrationRequest)
    (h : ∀ pr ∈ reg.services, pr.2.instances ≠ []) :
    ∀ pr ∈ (register_service reg req).1.services, pr.2.instances ≠ [] := by
  intro pr hpr
  simp only [register_service] at hpr
  rcases mem_dictInsert _ _ _ _ hpr with hm | hm
  · rw [hm]
    exact dictInsert_ne_nil _ _ _
  · exact h pr hm

theorem deregister_ok_nonempty (reg : ServiceRegistry) (n i : String)
    (reg' : ServiceRegistry)
    (h : ∀ pr ∈ reg.services, pr.2.instances ≠ [])
    (hok : deregister_service reg n i = Except.ok reg') :
    ∀ pr ∈ reg'.services, pr.2.instances ≠ [] := by
  unfold deregister_service at hok
  cases hget : dictGet? n reg.services with
  | none =>
    rw [hget] at hok
    simp at hok
  | some svc =>
    rw [hget] at hok
    simp only at hok
    by_cases hin : (dictGet? i svc.instances).isSome = true
    · rw [if_pos hin] at hok
      by_cases hemp : dictErase i svc.instances = []
      · rw [if_pos hemp] at hok
        injection hok with hok
        rw [← hok]
        intro pr hpr
        rw [mem_dictErase] at hpr
        exact h pr hpr.1
      · rw [if_neg hemp] at hok
        injection hok with hok
        rw [← hok]
        intro pr hpr
        rcases mem_dictInsert _ _ _ _ hpr with hm | hm
        · rw [hm]
          exact hemp
        · exact h pr hm
    · rw [if_neg hin] at hok
      injection hok with hok
      rw [← hok]
      exact h

theorem regOps_nonempty : ∀ (ops : List RegistryOp) (reg : ServiceRegistry),
    (∀ pr ∈ reg.services, pr.2.instances ≠ []) →
    ∀ pr ∈ (ops.foldl applyRegOp reg).services, pr.2.instances ≠ [] := by
  intro ops
  induction ops with
  | nil => intro reg h; exact h
  | cons op ops ih =>
    intro reg h
    rw [List.foldl_cons]
    apply ih
    cases op with
    | register req => exact register_preserves_nonempty reg req h
    | deregister n i =>
      simp only [applyRegOp]
      cases hd : deregister_service reg n i with
      | ok reg' => exact deregister_ok_nonempty reg n i reg' h hd
      | error e => exact h

/-- The concrete scenario of claim C7: register two instances of `"svc"`,
then deregister both. -/
def demoOps : List RegistryOp :=
  [RegistryOp.register { service_name := "svc", host := "a", port := 1 },
   RegistryOp.register { service_name := "svc", host := "b", port := 2 },
   RegistryOp.deregister "svc" "a:1",
   RegistryOp.deregister "svc" "b:2"]

/-- Claim C7: over any register/deregister sequence from the empty registry,
every stored `ServiceDefinition` has at least one instance (and an absent
one trivially has none); `deregister_service` on a present instance removes
the whole `ServiceDefinition` exactly when it removes the last instance;
deregistering an unknown service name raises `ServiceNotFoundError`; and
registering two instances of a service then deregistering both leaves the
service absent. -/
theorem claim_c7 :
    (∀ ops : List RegistryOp, ∀ pr ∈ (runRegOps ops).services, pr.2.instances ≠ [])
    ∧ (∀ (reg : ServiceRegistry) (n i : String) (svc : ServiceDefinition),
        dictGet? n reg.services = some svc →
        (dictGet? i svc.instances).isSome = true →
        ∃ reg', deregister_service reg n i = Except.ok reg'
          ∧ (dictGet? n reg'.services = none ↔ dictErase i svc.instances = []))
    ∧ (∀ (reg : ServiceRegistry) (n i : String),
        dictGet? n reg.services = none →
        deregister_service reg n i = Except.error RegistryError.serviceNotFound)
    ∧ dictGet? "svc" (runRegOps demoOps).services = none := by
  refine ⟨?_, ?_, ?_, ?_⟩
  · intro ops
    exact regOps_nonempty ops emptyRegistry (by intro pr hpr; simp [emptyRegistry] at hpr)
  · intro reg n i svc hget hin
    unfold deregister_service
    rw [hget]
    simp only
    rw [if_pos hin]
    by_cases hemp : dictErase i svc.instances = []
    · rw [if_pos hemp]
      refine ⟨_, rfl, ?_⟩
      rw [dictGet?_dictErase, if_pos rfl]
      simp [hemp]
    · rw [if_neg hemp]
      refine ⟨_, rfl, ?_⟩
      simp only
      rw [dictGet?_dictInsert, if_pos rfl]
      simp [hemp]
  · intro reg n i hget
    unfold deregister_service
    rw [hget]
  · decide

/-- A concrete registry: `"svc"` is registered with a single instance whose
health checks have failed. -/
def regUnhealthyW : ServiceRegistry :=
  { services := [("svc",
      { service_name := "svc",
        instances := [("a:1",
          { instance_id := "a:1", host := "a", port := 1,
            status := ServiceStatus.failed })] })] }

theorem claim_c7_witness :
    ∃ reg', deregister_service regUnhealthyW "svc" "a:1" = Except.ok reg'
      ∧ (dictGet? "svc" reg'.services = none ↔
          dictErase "a:1"
            [("a:1",
              ({ instance_id := "a:1", host := "a", port := 1,
                 status := ServiceStatus.failed } : ServiceInstance))] = []) :=
  claim_c7.2.1 regUnhealthyW "svc" "a:1"
    { service_name := "svc",
      instances := [("a:1",
        { instance_id := "a:1", host := "a", port := 1,
          status := ServiceStatus.failed })] }
    (by decide) (by decide)

/-- Claim C8: with `healthy_only = true`, `get_instance` raises
`ServiceNotFoundError` for an unknown service, raises
`ServiceUnavailableError` when the service exists but no instance has
status HEALTHY, any instance it returns has status HEALTHY, and when the
service exists with at least one HEALTHY instance it does succeed,
returning a HEALTHY instance. -/
theorem claim_c8 (reg : ServiceRegistry) (name : String) :
    (dictGet? name reg.services = none →
      get_instance reg name true = Except.error RegistryError.serviceNotFound)
    ∧ (∀ svc, dictGet? name reg.services = some svc →
        (∀ pr ∈ svc.instances, pr.2.status ≠ ServiceStatus.healthy) →
        get_instance reg name true = Except.error RegistryError.serviceUnavailable)
    ∧ (∀ inst, get_instance reg name true = Except.ok inst →
        inst.status = ServiceStatus.healthy)
    ∧ (∀ svc, dictGet? name reg.services = some svc →
        (∃ pr ∈ svc.instances, pr.2.status = ServiceStatus.healthy) →
        ∃ inst, get_instance reg name true = Except.ok inst
          ∧ inst.status = ServiceStatus.healthy) := by
  refine ⟨?_, ?_, ?_, ?_⟩
  · intro hget
    simp [get_instance, get_service, hget]
  · intro svc hget hall
    have hfilter : (svc.instances.map (fun pr => pr.2)).filter
        (fun inst => inst.status == ServiceStatus.healthy) = [] := by
      rw [List.filter_eq_nil_iff]
      intro inst hinst
      rw [List.mem_map] at hinst
      obtain ⟨pr, hpr, rfl⟩ := hinst
      simp [hall pr hpr]
    simp [get_instance, get_service, hget, hfilter]
  · intro inst hok
    unfold get_instance get_service at hok
    cases hget : dictGet? name reg.services with
    | none => rw [hget] at hok; simp at hok
    | some svc =>
      rw [hget] at hok
      simp only at hok
      cases hf : (svc.instances.map (fun pr => pr.2)).filter
          (fun i => !true || i.status == ServiceStatus.healthy) with
      | nil => rw [hf] at hok; simp at hok
      | cons i₀ rest =>
        rw [hf] at hok
        simp only [Except.ok.injEq] at hok
        have hmem : i₀ ∈ (svc.instances.map (fun pr => pr.2)).filter
            (fun i => !true || i.status == ServiceStatus.healthy) := by
          rw [hf]; exact List.mem_cons_self _ _
        have hp := List.of_mem_filter hmem
        rw [← hok]
        simpa using hp
  · intro svc hget hex
    obtain ⟨pr, hpr, hst⟩ := hex
    unfold get_instance get_service
    rw [hget]
    simp only
    have hmem : pr.2 ∈ (svc.instances.map (fun q => q.2)).filter
        (fun i => !true || i.status == ServiceStatus.healthy) := by
      rw [List.mem_filter]
      refine ⟨List.mem_map_of_mem _ hpr, ?_⟩
      simp [hst]
    cases hf : (svc.instances.map (fun q => q.2)).filter
        (fun i => !true || i.status == ServiceStatus.healthy) with
    | nil =>
      rw [hf] at hmem
      exact absurd hmem (List.not_mem_nil _)
    | cons i₀ rest =>
      refine ⟨i₀, ?_, ?_⟩
      · rfl
      · have hm₀ : i₀ ∈ (svc.instances.map (fun q => q.2)).filter
            (fun i => !true || i.status == ServiceStatus.healthy) := by
          rw [hf]
          exact List.mem_cons_self _ _
        have hp := List.of_mem_filter hm₀
        simpa using hp

/-- A registry whose only service has a single HEALTHY instance. -/
def regHealthyW : ServiceRegistry :=
  { services := [("svc",
      { service_name := "svc",
        instances := [("a:1",
          { instance_id := "a:1", host := "a", port := 1,
            status := ServiceStatus.healthy })] })] }

theorem claim_c8_witness :
    get_instance regUnhealthyW "svc" true
        = Except.error RegistryError.serviceUnavailable
    ∧ get_instance regUnhealthyW "other" true
        = Except.error RegistryError.serviceNotFound
    ∧ ({ instance_id := "a:1", host := "a", port := 1,
         status := ServiceStatus.healthy } : ServiceInstance).status
        = ServiceStatus.healthy
    ∧ ∃ inst, get_instance regHealthyW "svc" true = Except.ok inst
        ∧ inst.status = ServiceStatus.healthy :=
  ⟨(claim_c8 regUnhealthyW "svc").2.1
      { service_name := "svc",
        instances := [("a:1",
          { instance_id := "a:1", host := "a", port := 1,
            status := ServiceStatus.failed })] }
      (by decide) (by decide),
   (claim_c8 regUnhealthyW "other").1 (by decide),
   (claim_c8 regHealthyW "svc").2.2.1
      { instance_id := "a:1", host := "a", port := 1,
        status := ServiceStatus.healthy } (by rfl),
   (claim_c8 regHealthyW "svc").2.2.2
      { service_name := "svc",
        instances := [("a:1",
          { instance_id := "a:1", host := "a", port := 1,
            status := ServiceStatus.healthy })] }
      (by decide) (by decide)⟩

/-! ### Route table and proxying (`routing/router.py`, `routing/models.py`)

Paths and path prefixes are lists of characters; `str.startswith` is
`List.isPrefixOf` and `str.replace(old, "", 1)` is `removeFirst`.  The
fields of `RouteDefinition` not read by the modelled operations (`methods`,
`timeout`, `rate_limit`, `auth_required`, `scopes`, `metadata`) are
omitted, and `path_prefix` / `strip_prefix` are spelled `pathPfx` /
`stripPfx`. -/

/-- `RouteDefinition` from `routing/models.py`, with its Python defaults. -/
structure RouteDefinition : Type where
  service_name : String
  pathPfx : List Char
  stripPfx : Bool := true
  circuit_breaker : Bool := true
  deriving DecidableEq, Repr

/-- The `RouterManager` route table and breaker map. -/
structure RouterManager : Type where
  routes : List (List Char × RouteDefinition)
  circuit_breakers : List (String × CircuitBreaker)
  deriving DecidableEq, Repr

def emptyRouter : RouterManager := { routes := [], circuit_breakers := [] }

/-- `RouterManager.add_route` at time `now`: store the route under its path
prefix and, when `route.circuit_breaker`, a fresh default-config
`CircuitBreaker` under the route's service name. -/
def add_route (rm : RouterManager) (route : RouteDefinition) (now : Int) :
    RouterManager :=
  let rm := { rm with routes := dictInsert route.pathPfx route rm.routes }
  if route.circuit_breaker then
    { rm with circuit_breakers :=
        dictInsert route.service_name (mkBreaker {} now) rm.circuit_breakers }
  else rm

/-- `RouterManager.remove_route`: pop the route if present and drop the
breaker stored under its service name. -/
def remove_route (rm : RouterManager) (pfx : List Char) : RouterManager :=
  match dictGet? pfx rm.routes with
  | none => rm
  | some route =>
    { routes := dictErase pfx rm.routes
      circuit_breakers := dictErase route.service_name rm.circuit_breakers }

/-- `RouterManager.get_route`: the first route in table iteration
(= insertion) order whose path prefix satisfies `path.startswith(prefix)`. -/
def get_route (rm : RouterManager) (path : List Char) : Option RouteDefinition :=
  (rm.routes.find? (fun pr => pr.1.isPrefixOf path)).map (fun pr => pr.2)

/-- The route-table operations claim C1 ranges over. -/
inductive RouterOp : Type
  | addRoute (route : RouteDefinition) (now : Int)
  | removeRoute (pfx : List Char)
  deriving DecidableEq, Repr

def applyOp (rm : RouterManager) : RouterOp → RouterManager
  | RouterOp.addRoute route now => add_route rm route now
  | RouterOp.removeRoute p => remove_route rm p

def runOps (ops : List RouterOp) : RouterManager :=
  ops.foldl applyOp emptyRouter

/-- The routes added by a sequence of operations, in order. -/
def addsOf (ops : List RouterOp) : List RouteDefinition :=
  ops.filterMap (fun op => match op with
    | RouterOp.addRoute route _ => some route
    | RouterOp.removeRoute _ => none)

/-- The C1 invariant: a breaker is stored for a service name exactly when
some route currently in the table has that service name and
`circuit_breaker = true`. -/
def breakerInvariant (rm : RouterManager) : Prop :=
  ∀ s : String, (dictGet? s rm.circuit_breakers).isSome = true ↔
    ∃ pr ∈ rm.routes, pr.2.service_name = s ∧ pr.2.circuit_breaker = true

theorem add_route_routes (rm : RouterManager) (r : RouteDefinition) (now : Int) :
    (add_route rm r now).routes = dictInsert r.pathPfx r rm.routes := by
  unfold add_route
  by_cases hcb : r.circuit_breaker = true <;> simp [hcb]

theorem add_route_breakers (rm : RouterManager) (r : RouteDefinition) (now : Int) :
    (add_route rm r now).circuit_breakers =
      if r.circuit_breaker = true
      then dictInsert r.service_name (mkBreaker {} now) rm.circuit_breakers
      else rm.circuit_breakers := by
  unfold add_route
  by_cases hcb : r.circuit_breaker = true <;> simp [hcb]

theorem remove_route_none (rm : RouterManager) (p : List Char)
    (h : dictGet? p rm.routes = none) : remove_route rm p = rm := by
  simp [remove_route, h]

theorem remove_route_some (rm : RouterManager) (p : List Char)
    (route : RouteDefinition) (h : dictGet? p rm.routes = some route) :
    remove_route rm p =
      { routes := dictErase p rm.routes
        circuit_breakers := dictErase route.service_name rm.circuit_breakers } := by
  simp [remove_route, h]

theorem pairwise_ne_eq {α β : Type} (f : α → β) (l : List α)
    (hp : List.Pairwise (fun a b => f a ≠ f b) l)
    (a b : α) (ha : a ∈ l) (hb : b ∈ l) (hf : f a = f b) : a = b := by
  by_contra hne
  have hsym : Symmetric (fun a b : α => f a ≠ f b) := fun x y h => Ne.symm h
  exact hp.forall hsym ha hb hne hf

/-- The reachability invariant for claim C1: the breaker map matches the
route table, and no two stored routes share a service name or a key. -/
def RouterInv (rm : RouterManager) : Prop :=
  breakerInvariant rm
  ∧ List.Pairwise (fun p q : List Char × RouteDefinition =>
      p.2.service_name ≠ q.2.service_name) rm.routes
  ∧ List.Pairwise (fun p q : List Char × RouteDefinition => p.1 ≠ q.1) rm.routes

theorem routerInv_empty : RouterInv emptyRouter := by
  refine ⟨?_, ?_, ?_⟩
  · intro s
    constructor
    · intro h
      simp [emptyRouter, dictGet?] at h
    · rintro ⟨pr, hpr, _⟩
      exact absurd hpr (List.not_mem_nil pr)
  · exact List.Pairwise.nil
  · exact List.Pairwise.nil

theorem routerInv_add (rm : RouterManager) (r : RouteDefinition) (now : Int)
    (hinv : RouterInv rm)
    (hfresh : ∀ pr ∈ rm.routes,
      pr.2.service_name ≠ r.service_name ∧ pr.1 ≠ r.pathPfx) :
    RouterInv (add_route rm r now) := by
  obtain ⟨hbi, hsvc, hkeys⟩ := hinv
  have hroutes : (add_route rm r now).routes = rm.routes ++ [(r.pathPfx, r)] := by
    rw [add_route_routes]
    exact dictInsert_of_fresh _ _ _ (fun p hp => (hfresh p hp).2)
  refine ⟨?_, ?_, ?_⟩
  · intro s
    rw [hroutes, add_route_breakers]
    by_cases hcb : r.circuit_breaker = true
    · rw [if_pos hcb, dictGet?_dictInsert]
      by_cases hs : r.service_name = s
      · rw [if_pos hs]
        simp only [Option.isSome_some, true_iff]
        exact ⟨(r.pathPfx, r), by simp, hs, hcb⟩
      · rw [if_neg hs, hbi s]
        constructor
        · rintro ⟨pr, hm, hsn, hcb'⟩
          exact ⟨pr, List.mem_append_left _ hm, hsn, hcb'⟩
        · rintro ⟨pr, hm, hsn, hcb'⟩
          rcases List.mem_append.mp hm with hm | hm
          · exact ⟨pr, hm, hsn, hcb'⟩
          · simp at hm
            rw [hm] at hsn
            exact absurd hsn hs
    · rw [if_neg hcb, hbi s]
      constructor
      · rintro ⟨pr, hm, hsn, hcb'⟩
        exact ⟨pr, List.mem_append_left _ hm, hsn, hcb'⟩
      · rintro ⟨pr, hm, hsn, hcb'⟩
        rcases List.mem_append.mp hm with hm | hm
        · exact ⟨pr, hm, hsn, hcb'⟩
        · simp at hm
          rw [hm] at hcb'
          exact absurd hcb' hcb
  · rw [hroutes, List.pairwise_append]
    refine ⟨hsvc, List.pairwise_singleton _ _, ?_⟩
    intro a ha b hb
    simp at hb
    rw [hb]
    exact (hfresh a ha).1
  · rw [hroutes, List.pairwise_append]
    refine ⟨hkeys, List.pairwise_singleton _ _, ?_⟩
    intro a ha b hb
    simp at hb
    rw [hb]
    exact (hfresh a ha).2

theorem routerInv_remove (rm : RouterManager) (p : List Char)
    (hinv : RouterInv rm) : RouterInv (remove_route rm p) := by
  obtain ⟨hbi, hsvc, hkeys⟩ := hinv
  cases hget : dictGet? p rm.routes with
  | none =>
    rw [remove_route_none rm p hget]
    exact ⟨hbi, hsvc, hkeys⟩
  | some route =>
    rw [remove_route_some rm p route hget]
    have hmem : (p, route) ∈ rm.routes := dictGet?_some_mem p route rm.routes hget
    refine ⟨?_, ?_, ?_⟩
    · intro s
      simp only
      rw [dictGet?_dictErase]
      by_cases hs : route.service_name = s
      · rw [if_pos hs]
        simp only [Option.isSome_none, Bool.false_eq_true, false_iff]
        rintro ⟨pr, hm, hsn, _⟩
        rw [mem_dictErase] at hm
        obtain ⟨hm, hne⟩ := hm
        have hpr_eq : pr = (p, route) :=
          pairwise_ne_eq (fun q => q.2.service_name) rm.routes hsvc
            pr (p, route) hm hmem (hsn.trans hs.symm)
        exact hne (congrArg Prod.fst hpr_eq)
      · rw [if_neg hs, hbi s]
        constructor
        · rintro ⟨pr, hm, hsn, hcb'⟩
          refine ⟨pr, ?_, hsn, hcb'⟩
          rw [mem_dictErase]
          refine ⟨hm, ?_⟩
          intro hkey
          have hpr_eq : pr = (p, route) :=
            pairwise_ne_eq (fun q => q.1) rm.routes hkeys
              pr (p, route) hm hmem hkey
          rw [hpr_eq] at hsn
          exact hs hsn
        · rintro ⟨pr, hm, hsn, hcb'⟩
          rw [mem_dictErase] at hm
          exact ⟨pr, hm.1, hsn, hcb'⟩
    · exact List.Pairwise.sublist (dictErase_sublist p rm.routes) hsvc
    · exact List.Pairwise.sublist (dictErase_sublist p rm.routes) hkeys

theorem mem_remove_route (rm : RouterManager) (p : List Char)
    (pr : List Char × RouteDefinition) (h : pr ∈ (remove_route rm p).routes) :
    pr ∈ rm.routes := by
  cases hget : dictGet? p rm.routes with
  | none => rw [remove_route_none rm p hget] at h; exact h
  | some route =>
    rw [remove_route_some rm p route hget] at h
    simp only at h
    rw [mem_dictErase] at h
    exact h.1

theorem runOpsFrom_inv : ∀ (ops : List RouterOp) (rm : RouterManager),
    RouterInv rm →
    (∀ r ∈ addsOf ops, ∀ pr ∈ rm.routes,
      pr.2.service_name ≠ r.service_name ∧ pr.1 ≠ r.pathPfx) →
    List.Pairwise (fun r₁ r₂ : RouteDefinition =>
      r₁.service_name ≠ r₂.service_name ∧ r₁.pathPfx ≠ r₂.pathPfx) (addsOf ops) →
    RouterInv (ops.foldl applyOp rm) := by
  intro ops
  induction ops with
  | nil => intro rm hinv _ _; exact hinv
  | cons op ops ih =>
    intro rm hinv hfresh hdist
    rw [List.foldl_cons]
    cases op with
    | addRoute r now =>
      have haddsOf : addsOf (RouterOp.addRoute r now :: ops) = r :: addsOf ops := rfl
      rw [haddsOf] at hfresh hdist
      have hfr : ∀ pr ∈ rm.routes,
          pr.2.service_name ≠ r.service_name ∧ pr.1 ≠ r.pathPfx :=
        fun pr hpr => hfresh r (List.mem_cons_self _ _) pr hpr
      have hroutes : (add_route rm r now).routes = rm.routes ++ [(r.pathPfx, r)] := by
        rw [add_route_routes]
        exact dictInsert_of_fresh _ _ _ (fun q hq => (hfr q hq).2)
      obtain ⟨hhead, htail⟩ := List.pairwise_cons.mp hdist
      apply ih
      · exact routerInv_add rm r now hinv hfr
      · intro r' hr' pr hpr
        simp only [applyOp] at hpr
        rw [hroutes] at hpr
        rcases List.mem_append.mp hpr with hm | hm
        · exact hfresh r' (List.mem_cons_of_mem _ hr') pr hm
        · simp at hm
          rw [hm]
          obtain ⟨hsn, hpfx⟩ := hhead r' hr'
          exact ⟨hsn, hpfx⟩
      · exact htail
    | removeRoute p =>
      have haddsOf : addsOf (RouterOp.removeRoute p :: ops) = addsOf ops := rfl
      rw [haddsOf] at hfresh hdist
      apply ih
      · exact routerInv_remove rm p hinv
      · intro r' hr' pr hpr
        exact hfresh r' hr' pr (mem_remove_route rm p pr hpr)
      · exact hdist

/-- Routes used by the C1 counterexample: two routes, different path
prefixes, the same service name, both with the breaker enabled. -/
def cexRouteA : RouteDefinition := { service_name := "svc", pathPfx := "/a".data }

def cexRouteB : RouteDefinition := { service_name := "svc", pathPfx := "/b".data }

/-- The C1 counterexample sequence: add both routes for `"svc"`, then
remove the first; `remove_route` also deletes the shared breaker. -/
def cexOps : List RouterOp :=
  [RouterOp.addRoute cexRouteA 0, RouterOp.addRoute cexRouteB 0,
   RouterOp.removeRoute ("/a".data)]

/-- Claim C1 counterexample: after `cexOps` the table still holds a route
for `"svc"` with `circuit_breaker = true`, but no breaker is stored for
`"svc"` — the claimed invariant fails for this add/remove sequence. -/
theorem claim_c1_counterexample :
    (dictGet? "svc" (runOps cexOps).circuit_breakers).isSome = false
    ∧ ∃ pr ∈ (runOps cexOps).routes,
        pr.2.service_name = "svc" ∧ pr.2.circuit_breaker = true := by
  decide

/-- Claim C1 (amended): the breaker-table invariant holds for every
add/remove sequence in which the added routes have pairwise distinct
service names and pairwise distinct path prefixes. -/
theorem claim_c1_amended (ops : List RouterOp)
    (hdist : List.Pairwise (fun r₁ r₂ : RouteDefinition =>
      r₁.service_name ≠ r₂.service_name ∧ r₁.pathPfx ≠ r₂.pathPfx) (addsOf ops)) :
    ∀ s : String, (dictGet? s (runOps ops).circuit_breakers).isSome = true ↔
      ∃ pr ∈ (runOps ops).routes,
        pr.2.service_name = s ∧ pr.2.circuit_breaker = true := by
  have h := runOpsFrom_inv ops emptyRouter routerInv_empty
    (by intro r _ pr hpr; simp [emptyRouter] at hpr) hdist
  exact h.1

theorem claim_c1_witness :
    (dictGet? "svc"
        (runOps [RouterOp.addRoute cexRouteA 0]).circuit_breakers).isSome = true ↔
      ∃ pr ∈ (runOps [RouterOp.addRoute cexRouteA 0]).routes,
        pr.2.service_name = "svc" ∧ pr.2.circuit_breaker = true :=
  claim_c1_amended [RouterOp.addRoute cexRouteA 0] (by decide) "svc"

theorem find?_some_split {α : Type} (p : α → Bool) :
    ∀ (l : List α) (a : α), l.find? p = some a →
      ∃ l₁ l₂, l = l₁ ++ a :: l₂ ∧ p a = true ∧ ∀ x ∈ l₁, p x = false := by
  intro l
  induction l with
  | nil => intro a h; simp at h
  | cons x xs ih =>
    intro a h
    cases hx : p x with
    | true =>
      rw [List.find?_cons_of_pos _ hx] at h
      injection h with h
      refine ⟨[], xs, by rw [h]; rfl, by rw [← h]; exact hx, ?_⟩
      intro y hy
      simp at hy
    | false =>
      rw [List.find?_cons_of_neg _ (by simp [hx])] at h
      obtain ⟨l₁, l₂, hl, hpa, hall⟩ := ih a h
      refine ⟨x :: l₁, l₂, by rw [hl]; rfl, hpa, ?_⟩
      intro y hy
      rcases List.mem_cons.mp hy with rfl | hy
      · exact hx
      · exact hall y hy

theorem isPrefixOf_iff_append : ∀ l₁ l₂ : List Char,
    l₁.isPrefixOf l₂ = true ↔ ∃ t, l₁ ++ t = l₂ := by
  intro l₁
  induction l₁ with
  | nil =>
    intro l₂
    simp [List.isPrefixOf]
  | cons a as ih =>
    intro l₂
    cases l₂ with
    | nil => simp [List.isPrefixOf]
    | cons b bs =>
      simp only [List.isPrefixOf, Bool.and_eq_true, beq_iff_eq, ih bs,
        List.cons_append]
      constructor
      · rintro ⟨rfl, t, rfl⟩
        exact ⟨t, rfl⟩
      · rintro ⟨t, ht⟩
        injection ht with h₁ h₂
        exact ⟨h₁, t, h₂⟩

/-- Claim C9: `get_route path` is `none` exactly when no registered prefix
passes `path.startswith(prefix)`; a returned route is the first match in
table-iteration order (every earlier entry fails the check); a route added
under a fresh prefix lands at the end of the table, so iteration order is
`add_route` insertion order; and `isPrefixOf` is exactly the string-prefix
relation. -/
theorem claim_c9 (rm : RouterManager) (path : List Char) :
    (get_route rm path = none ↔ ∀ pr ∈ rm.routes, pr.1.isPrefixOf path = false)
    ∧ (∀ r, get_route rm path = some r →
        ∃ l₁ pr l₂, rm.routes = l₁ ++ pr :: l₂ ∧ pr.2 = r
          ∧ pr.1.isPrefixOf path = true
          ∧ ∀ q ∈ l₁, q.1.isPrefixOf path = false)
    ∧ (∀ (route : RouteDefinition) (now : Int),
        (∀ pr ∈ rm.routes, pr.1 ≠ route.pathPfx) →
        (add_route rm route now).routes = rm.routes ++ [(route.pathPfx, route)])
    ∧ (∀ l₁ l₂ : List Char, l₁.isPrefixOf l₂ = true ↔ ∃ t, l₁ ++ t = l₂) := by
  refine ⟨?_, ?_, ?_, isPrefixOf_iff_append⟩
  · unfold get_route
    rw [Option.map_eq_none', List.find?_eq_none]
    constructor
    · intro h pr hpr
      exact Bool.eq_false_iff.mpr (h pr hpr)
    · intro h pr hpr
      exact Bool.eq_false_iff.mp (h pr hpr)
  · intro r hr
    unfold get_route at hr
    rw [Option.map_eq_some'] at hr
    obtain ⟨pr, hfind, hpr2⟩ := hr
    obtain ⟨l₁, l₂, hl, hp, hall⟩ := find?_some_split _ rm.routes pr hfind
    exact ⟨l₁, pr, l₂, hl, hpr2, hp, hall⟩
  · intro route now hfresh
    rw [add_route_routes]
    exact dictInsert_of_fresh _ _ _ hfresh

/-- A one-route table used to witness claim C9. -/
def rmRoutesW : RouterManager :=
  { routes := [("/api/v1/test".data,
      { service_name := "test", pathPfx := "/api/v1/test".data })]
    circuit_breakers := [] }

theorem claim_c9_witness :
    ∃ l₁ pr l₂, rmRoutesW.routes = l₁ ++ pr :: l₂
      ∧ pr.2 = ({ service_name := "test",
                  pathPfx := "/api/v1/test".data } : RouteDefinition)
      ∧ pr.1.isPrefixOf ("/api/v1/test/extra".data) = true
      ∧ ∀ q ∈ l₁, q.1.isPrefixOf ("/api/v1/test/extra".data) = false :=
  (claim_c9 rmRoutesW ("/api/v1/test/extra".data)).2.1 _ (by rfl)

/-! ### The proxied backend call (`proxy_request` / `_make_request`) -/

/-- `str.replace(old, "", 1)` as `proxy_request` uses it: remove the first
occurrence of `old`. -/
def removeFirst (old : List Char) : List Char → List Char
  | [] => []
  | c :: cs =>
    if old.isPrefixOf (c :: cs) then List.drop old.length (c :: cs)
    else c :: removeFirst old cs

/-- The forwarded path `proxy_request` computes: strip the route's path
prefix (first occurrence) when `strip_prefix`, else the path unchanged. -/
def target_path (route : RouteDefinition) (reqPath : List Char) : List Char :=
  if route.stripPfx then removeFirst route.pathPfx reqPath else reqPath

/-- The backend URL `proxy_request` assembles:
`http://{instance.host}:{instance.port}{target_path}`. -/
def target_url (inst : ServiceInstance) (tpath : List Char) : List Char :=
  ("http://".data) ++ inst.host.data ++ (":".data)
    ++ (Nat.repr inst.port).data ++ tpath

/-- `ProxyRequest` (`routing/models.py`): the fields `_make_request` reads
to address the call (headers, query params and body are forwarded
unchanged and not modelled). -/
structure ProxyRequest : Type where
  method : String
  path : List Char
  deriving DecidableEq, Repr

/-- The `ProxyRequest` that `proxy_request` constructs: its `path` field is
the forwarded `target_path`. -/
def mkProxyRequest (method : String) (route : RouteDefinition)
    (reqPath : List Char) : ProxyRequest :=
  { method := method, path := target_path route reqPath }

/-- The `url=` argument `_make_request` passes to the HTTP client:
`proxy_request.path`. -/
def make_request_url (req : ProxyRequest) : List Char := req.path

/-- Stripping a prefix off a path that starts with it leaves the tail. -/
theorem removeFirst_append (old rest : List Char) :
    removeFirst old (old ++ rest) = rest := by
  cases old with
  | nil =>
    cases rest with
    | nil => rfl
    | cons c cs => simp [removeFirst, List.isPrefixOf]
  | cons a as =>
    have hpre : (a :: as).isPrefixOf ((a :: as) ++ rest) = true :=
      (isPrefixOf_iff_append _ _).mpr ⟨rest, rfl⟩
    simp only [List.cons_append] at hpre ⊢
    rw [removeFirst, if_pos hpre]
    exact List.drop_left (a :: as) rest

/-- The route and backend instance of the C2 failing input. -/
def cexProxyRoute : RouteDefinition :=
  { service_name := "test", pathPfx := "/api/v1/test".data }

def cexInstance : ServiceInstance :=
  { instance_id := "localhost:8080", host := "localhost", port := 8080,
    status := ServiceStatus.healthy }

/-- Claim C2 (code bug evidence): for the stripping route `/api/v1/test`
and a request for `/api/v1/test/extra` proxied to an instance at
`localhost:8080`, `proxy_request` computes the forwarded path `/extra` and
assembles `target_url = http://localhost:8080/extra`, but the `ProxyRequest`
it hands to `_make_request` carries only the forwarded path, and
`_make_request` passes `url=proxy_request.path` to the HTTP client — the
assembled `target_url` is never used for the call. -/
theorem claim_c2_failing :
    target_path cexProxyRoute ("/api/v1/test/extra".data) = "/extra".data
    ∧ target_url cexInstance (target_path cexProxyRoute ("/api/v1/test/extra".data))
        = "http://localhost:8080/extra".data
    ∧ make_request_url (mkProxyRequest "GET" cexProxyRoute ("/api/v1/test/extra".data))
        = "/extra".data
    ∧ make_request_url (mkProxyRequest "GET" cexProxyRoute ("/api/v1/test/extra".data))
        ≠ target_url cexInstance (target_path cexProxyRoute ("/api/v1/test/extra".data)) := by
  refine ⟨by decide, by decide, by decide, by decide⟩

end Gateway
